import Mathlib

/-!
# Verification of the weekly-ranking aggregation in `scripts/scraper.py`

Shallow embedding of the core of the NBA-Fantasy-Weekly scraper
(`scripts/scraper.py`): the calendar resolver `get_game_dates_for_week`,
the weekly aggregator / movement calculator `compute_weekly_ranking`, and
the output-write guard in `main`.

Modelling conventions:

* Calendar dates are integers counting whole days from a fixed epoch that
  falls on a Monday.  `"%Y-%m-%d"` strings compare lexicographically exactly
  as their dates compare chronologically, `strptime`/`strftime` round-trip,
  and `datetime.weekday()` (Monday = 0) is `d % 7` for such an epoch, so all
  string-keyed date arithmetic of the script is faithfully mirrored on `Int`.
* Timestamps (`deadline_time`) are integers counting minutes from the same
  epoch, in UTC.
* The snapshot directory (`data/daily/*.json`) is a finite list of
  `Snapshot` records, one per file; `Snapshot.date` is the file-name stem.
  Filenames are unique, so a well-formed store has pairwise-distinct dates,
  but no definition below relies on that.
* Python dictionaries are iterated in insertion order; wherever that order
  matters (`entry_info`, `entry_totals`, `daily_snapshots`,
  `yesterday_weekly`) the embedding reproduces it with lists.
* Python `//` on `int` is floor division, embedded as `Int.fdiv`.
* Python exceptions escaping a function are embedded with `Except`.
-/

namespace Scraper

/-- One participant entry of a daily snapshot
(the v4 shape written by `save_daily_snapshot`). -/
structure Entry where
  entry : Int
  player_name : String
  entry_name : String
  total : Int
deriving DecidableEq

/-- One daily snapshot file: `date` is the file-name stem (as a day number),
`entries` the participant list in file order. -/
structure Snapshot where
  date : Int
  entries : List Entry
deriving DecidableEq

/-- `POINTS_DIVISOR = 10`: the API returns point values at ten-fold scale. -/
def POINTS_DIVISOR : Int := 10

/-- `load_daily_snapshot(date_str)`: look the date up among the snapshot
files (`DAILY_DIR / f"{date_str}.json"`). -/
def load_daily_snapshot (store : List Snapshot) (d : Int) : Option Snapshot :=
  store.find? (fun s => s.date == d)

/-- `find_previous_snapshot(date_str)`: the snapshot files sorted by name
descending (`sorted(..., reverse=True)`; on ISO date stems, name order is
date order), then the first whose date is strictly before the target. -/
def find_previous_snapshot (store : List Snapshot) (target : Int) : Option Snapshot :=
  (store.mergeSort (fun a b => decide (b.date ≤ a.date))).find? (fun s => decide (s.date < target))

/-- `get_week_bounds(date_str)`: Monday and Sunday of the week containing
the date (`dt - timedelta(days=dt.weekday())`; the epoch is a Monday, so
`weekday = d % 7`). -/
def get_week_bounds (d : Int) : Int × Int :=
  (d - d.emod 7, d - d.emod 7 + 6)

/-- The `daily_snapshots` loading loop of `compute_weekly_ranking`:
for `i in range(7)`, stop (`break`) once `monday + i` is after today,
and keep the snapshots that exist. -/
def loadWeekSnapshots (store : List Snapshot) (monday today : Int) : List Snapshot :=
  ((List.range 7).takeWhile (fun (i : Nat) => decide (monday + (i : Int) ≤ today))).filterMap
    (fun (i : Nat) => load_daily_snapshot store (monday + (i : Int)))

/-- All entries of the loaded snapshots, in the iteration order of the
`for day_str, snapshot in daily_snapshots.items(): for e in snapshot["entries"]`
loop (chronological days, file order within a day). -/
def allEntries (loaded : List Snapshot) : List Entry :=
  loaded.flatMap (fun s => s.entries)

/-- Key order of the `entry_info` dictionary: first-occurrence order of the
entry ids over `allEntries` (a repeated dict assignment keeps the key's
original position). -/
def entryIds (loaded : List Snapshot) : List Int :=
  (allEntries loaded).foldl
    (fun acc e => if acc.contains e.entry then acc else acc ++ [e.entry]) []

/-- Value of the `entry_info` dictionary at an id: the name fields of the
last write, i.e. of the id's last occurrence over `allEntries`. -/
def infoOf (loaded : List Snapshot) (eid : Int) : Option (String × String) :=
  (((allEntries loaded).filter (fun e => e.entry == eid)).getLast?).map
    (fun e => (e.player_name, e.entry_name))

/-- `entry_totals[eid][day_str]`: the total of the id's last occurrence in
that day's loaded snapshot; `none` when the day has no loaded snapshot or
the id does not appear in it (`day_str not in totals`). -/
def totalOf (loaded : List Snapshot) (eid d : Int) : Option Int :=
  (load_daily_snapshot loaded d).bind
    (fun s => (((s.entries).filter (fun e => e.entry == eid)).getLast?).map (fun e => e.total))

/-- `pre_week_totals.get(eid)`: the id's total in the most recent snapshot
strictly before the week's Monday (last occurrence wins, as in the
`pre_week_totals[e["entry"]] = e["total"]` loop). -/
def pre_week_totals (store : List Snapshot) (monday eid : Int) : Option Int :=
  (find_previous_snapshot store monday).bind
    (fun s => (((s.entries).filter (fun e => e.entry == eid)).getLast?).map (fun e => e.total))

/-- The backward scan `for j in range(i - 1, -1, -1)` over this week's days:
the first day index `j < i` (largest first) on which the entry has a total. -/
def findPrevInWeek (loaded : List Snapshot) (eid monday : Int) (i : Nat) : Option Int :=
  ((List.range i).reverse).findSome? (fun j => totalOf loaded eid (monday + (j : Int)))

/-- `prev_total` resolution: the in-week backward scan, then the pre-week
snapshot (`if prev_total is None and eid in pre_week_totals`). -/
def resolvePrev (store loaded : List Snapshot) (eid monday : Int) (i : Nat) : Option Int :=
  match findPrevInWeek loaded eid monday i with
  | some p => some p
  | none => pre_week_totals store monday eid

/-- One iteration of the per-day loop of the main aggregation:
`none` when the slot stays `None` (`continue` on a non-game day or a day
without a total for this entry), otherwise the computed `day_pts`
(`(current_total - prev_total) // POINTS_DIVISOR`, or `0` when no reference
total resolves). -/
def daySlot (store : List Snapshot) (gameDays : List Nat) (loaded : List Snapshot)
    (eid monday : Int) (i : Nat) : Option Int :=
  if gameDays.contains i then
    match totalOf loaded eid (monday + (i : Int)) with
    | some current =>
      match resolvePrev store loaded eid monday i with
      | some prev => some ((current - prev).fdiv POINTS_DIVISOR)
      | none => some 0
    | none => none
  else none

/-- The state update of the per-day loop: `days_array[i] = day_pts` and
`weekly_total += day_pts` when the slot is computed, nothing otherwise. -/
def dayStep (store : List Snapshot) (gameDays : List Nat) (loaded : List Snapshot)
    (eid monday : Int) (acc : List (Option Int) × Int) (i : Nat) : List (Option Int) × Int :=
  match daySlot store gameDays loaded eid monday i with
  | some pts => (acc.1.set i (some pts), acc.2 + pts)
  | none => acc

/-- The whole `for i in range(7)` loop of the main aggregation, started from
`days_array = [None] * 7` and `weekly_total = 0`. -/
def buildWeek (store : List Snapshot) (gameDays : List Nat) (loaded : List Snapshot)
    (eid monday : Int) : List (Option Int) × Int :=
  (List.range 7).foldl (dayStep store gameDays loaded eid monday) (List.replicate 7 none, 0)

/-- One row of `weekly_data`: the dict
`{"entry", "player_name", "entry_name", "days", "total"}` plus the `rank`
and `movement` keys added afterwards (held at `0` until assigned). -/
structure Row where
  entry : Int
  player_name : String
  entry_name : String
  days : List (Option Int)
  total : Int
  rank : Nat
  movement : Int
deriving DecidableEq

/-- The unranked `weekly_data` list, built over `entry_info` in key order. -/
def weeklyRows (store : List Snapshot) (gameDays : List Nat) (loaded : List Snapshot)
    (monday : Int) : List Row :=
  (entryIds loaded).map (fun eid =>
    { entry := eid
      player_name := (((infoOf loaded eid).map Prod.fst)).getD ""
      entry_name := (((infoOf loaded eid).map Prod.snd)).getD ""
      days := (buildWeek store gameDays loaded eid monday).1
      total := (buildWeek store gameDays loaded eid monday).2
      rank := 0
      movement := 0 })

/-- The comparison of `weekly_data.sort(key=lambda x: x["total"], reverse=True)`:
CPython's sort is stable and `reverse=True` keeps equal keys in their
original order, which is exactly a stable merge sort under this relation. -/
def rowLE (a b : Row) : Bool := decide (b.total ≤ a.total)

/-- `weekly_data.sort(key=lambda x: x["total"], reverse=True)`. -/
def sortRows (rows : List Row) : List Row := rows.mergeSort rowLE

/-- `for i, entry in enumerate(weekly_data): entry["rank"] = i + 1`. -/
def assignRanks : Nat → List Row → List Row
  | _, [] => []
  | i, r :: rest => { r with rank := i + 1 } :: assignRanks (i + 1) rest

/-- `weekly_data` after the sort and the rank assignment. -/
def rankedRows (store : List Snapshot) (gameDays : List Nat) (loaded : List Snapshot)
    (monday : Int) : List Row :=
  assignRanks 0 (sortRows (weeklyRows store gameDays loaded monday))

/-- One iteration of the per-day loop of the yesterday reconstruction:
like `daySlot`, except that an unresolved reference adds nothing
(the `if prev is not None` there has no `else`). -/
def ydaySlot (store : List Snapshot) (gameDays : List Nat) (loaded : List Snapshot)
    (eid monday : Int) (i : Nat) : Option Int :=
  if gameDays.contains i then
    match totalOf loaded eid (monday + (i : Int)) with
    | some current =>
      match resolvePrev store loaded eid monday i with
      | some prev => some ((current - prev).fdiv POINTS_DIVISOR)
      | none => none
    | none => none
  else none

/-- The `yday_total` loop: `for i in range(7)`, `break` once the day is
after yesterday, accumulate the computed deltas. -/
def yesterdayTotal (store : List Snapshot) (gameDays : List Nat) (loaded : List Snapshot)
    (eid monday yesterday : Int) : Int :=
  ((List.range 7).takeWhile (fun (i : Nat) => decide (monday + (i : Int) ≤ yesterday))).foldl
    (fun t i =>
      match ydaySlot store gameDays loaded eid monday i with
      | some v => t + v
      | none => t) 0

/-- `yesterday_weekly.items()`: one pair per `entry_info` key, in key order. -/
def yesterdayPairs (store : List Snapshot) (gameDays : List Nat) (loaded : List Snapshot)
    (monday yesterday : Int) : List (Int × Int) :=
  (entryIds loaded).map
    (fun eid => (eid, yesterdayTotal store gameDays loaded eid monday yesterday))

/-- The comparison of `sorted(yesterday_weekly.items(), key=lambda x: x[1],
reverse=True)`: stable descending by the total component. -/
def pairLE (a b : Int × Int) : Bool := decide (b.2 ≤ a.2)

/-- `{eid: rank + 1 for rank, (eid, _) in enumerate(sorted_yesterday)}`. -/
def assignPairRanks : Nat → List (Int × Int) → List (Int × Nat)
  | _, [] => []
  | i, (eid, _) :: rest => (eid, i + 1) :: assignPairRanks (i + 1) rest

/-- `yesterday_rank_map`. -/
def yesterdayRankMap (store : List Snapshot) (gameDays : List Nat) (loaded : List Snapshot)
    (monday yesterday : Int) : List (Int × Nat) :=
  assignPairRanks 0 ((yesterdayPairs store gameDays loaded monday yesterday).mergeSort pairLE)

/-- The per-row movement assignment inside the movement block:
`yesterday_rank_map[eid] - entry["rank"]` when the id is in the map,
`0` otherwise. -/
def setMovement (yMap : List (Int × Nat)) (r : Row) : Row :=
  match yMap.lookup r.entry with
  | some y => { r with movement := (y : Int) - (r.rank : Int) }
  | none => { r with movement := 0 }

/-- The `for entry in weekly_data` loop of the movement block. -/
def applyMovement (yMap : List (Int × Nat)) (rows : List Row) : List Row :=
  rows.map (setMovement yMap)

/-- The `else` branch: `entry["movement"] = 0` for every row. -/
def clearMovement (r : Row) : Row := { r with movement := 0 }

/-- The guard of the movement block:
`yesterday_str in daily_snapshots and len(sorted_days) >= 2`
(the keys of `daily_snapshots` are pairwise-distinct dates, so the number
of distinct snapshot dates this week is the number of loaded snapshots). -/
def movementCond (loaded : List Snapshot) (yesterday : Int) : Bool :=
  loaded.any (fun s => s.date == yesterday) && decide (2 ≤ loaded.length)

/-- The ranked rows of `compute_weekly_ranking` with their movement values
(the value of `weekly_data` at the `return`, when snapshots exist). -/
def computeRows (store : List Snapshot) (gameDays : List Nat) (today : Int) : List Row :=
  if movementCond (loadWeekSnapshots store (get_week_bounds today).1 today) (today - 1) then
    applyMovement
      (yesterdayRankMap store gameDays
        (loadWeekSnapshots store (get_week_bounds today).1 today)
        (get_week_bounds today).1 (today - 1))
      (rankedRows store gameDays
        (loadWeekSnapshots store (get_week_bounds today).1 today)
        (get_week_bounds today).1)
  else
    (rankedRows store gameDays
      (loadWeekSnapshots store (get_week_bounds today).1 today)
      (get_week_bounds today).1).map clearMovement

/-- `compute_weekly_ranking(today_str, game_days)`: `None` when no snapshot
of the current week (up to today) exists, the annotated ranking otherwise. -/
def compute_weekly_ranking (store : List Snapshot) (gameDays : List Nat) (today : Int) :
    Option (List Row) :=
  if (loadWeekSnapshots store (get_week_bounds today).1 today).isEmpty then none
  else some (computeRows store gameDays today)

/-- A game event of the `/api/events/` calendar.  `deadline_time` models the
JSON field through its parse behaviour: `none` is a missing or empty field
(falsy, so `if not event.get("deadline_time"): continue` fires); `some none`
is a present string that `datetime.fromisoformat` rejects (raising
`ValueError`); `some (some t)` is a string parsing to the UTC instant `t`,
counted in minutes from the epoch. -/
structure Event where
  id : Int
  deadline_time : Option (Option Int)
deriving DecidableEq

/-- `ET = timezone(timedelta(hours=-5))`, in minutes. -/
def ET_OFFSET_MINUTES : Int := 5 * 60

/-- Minutes per calendar day. -/
def MINUTES_PER_DAY : Int := 24 * 60

/-- The calendar date (day number) of the UTC instant `t` in the fixed
US-Eastern zone: `dt_utc.astimezone(ET).strftime("%Y-%m-%d")`. -/
def etDate (t : Int) : Int := (t - ET_OFFSET_MINUTES).fdiv MINUTES_PER_DAY

/-- The `game_days` dictionary update
(`game_days.setdefault(day_index, []).append(event["id"])`, spelled out):
append to an existing key, or insert the key at the end. -/
def addGameDay (gd : List (Nat × List Int)) (idx : Nat) (eid : Int) : List (Nat × List Int) :=
  if gd.any (fun p => p.1 == idx) then
    gd.map (fun p => if p.1 == idx then (p.1, p.2 ++ [eid]) else p)
  else gd ++ [(idx, [eid])]

/-- The event loop of `get_game_dates_for_week`.  A missing deadline is
skipped (`continue`); a present but unparseable deadline makes
`datetime.fromisoformat` raise, which propagates (`Except.error`); an event
inside the week is assigned to its day index. -/
def gameDatesLoop (monday sunday : Int) :
    List Event → List (Nat × List Int) → Except Unit (List (Nat × List Int))
  | [], gd => Except.ok gd
  | e :: rest, gd =>
    match e.deadline_time with
    | none => gameDatesLoop monday sunday rest gd
    | some none => Except.error ()
    | some (some t) =>
      if monday ≤ etDate t ∧ etDate t ≤ sunday then
        if 0 ≤ etDate t - monday ∧ etDate t - monday ≤ 6 then
          gameDatesLoop monday sunday rest (addGameDay gd (etDate t - monday).toNat e.id)
        else gameDatesLoop monday sunday rest gd
      else gameDatesLoop monday sunday rest gd

/-- `get_game_dates_for_week(events, monday_str, sunday_str)`. -/
def get_game_dates_for_week (events : List Event) (monday sunday : Int) :
    Except Unit (List (Nat × List Int)) :=
  gameDatesLoop monday sunday events []

/-- The sum of the non-`None` slots of a days array. -/
def sumDays (days : List (Option Int)) : Int := (days.filterMap id).sum

/-- The write guard of `main`: `if weekly_data:` — Python truthiness is
`False` both for `None` and for an empty list, and only a truthy result is
serialized over the previous `docs/data.json`. -/
def mainWritesOutput : Option (List Row) → Bool
  | none => false
  | some rows => !rows.isEmpty

/-- The movement-independent data of a row (id, days array, weekly total):
what sorting and ranking may reorder but never rewrite. -/
def rowData (r : Row) : Int × List (Option Int) × Int := (r.entry, r.days, r.total)

/-- Modelled from the spec (§4.3 Movement Calculator): re-run the §4.2
delta/sum logic (`dayStep`, the per-day loop of the main aggregation)
restricted to the day-indices whose date is ≤ the horizon, and take the
resulting weekly total. -/
def weekTotalUpTo (store : List Snapshot) (gameDays : List Nat) (loaded : List Snapshot)
    (eid monday horizon : Int) : Int :=
  (((List.range 7).filter (fun (i : Nat) => decide (monday + (i : Int) ≤ horizon))).foldl
    (dayStep store gameDays loaded eid monday) (List.replicate 7 none, 0)).2

/-! ### Concrete fixtures used to witness theorems on explicit inputs -/

/-- A store with snapshots on two consecutive game days (Monday, Tuesday)
for a single participant. -/
def wStore2 : List Snapshot := [⟨0, [⟨1, "a", "a", 100⟩]⟩, ⟨1, [⟨1, "a", "a", 130⟩]⟩]

/-- The output row of `compute_weekly_ranking wStore2 [0, 1] 1`. -/
def wRow2 : Row := ⟨1, "a", "a", [some 0, some 3, none, none, none, none, none], 3, 1, 0⟩

/-! ## Helper lemmas -/

theorem sumDays_nil : sumDays [] = 0 := rfl

theorem sumDays_cons (a : Option Int) (l : List (Option Int)) :
    sumDays (a :: l) = (a.getD 0) + sumDays l := by
  cases a <;> simp [sumDays]

theorem sumDays_set {days : List (Option Int)} {i : Nat} {v : Int}
    (h : days[i]? = some none) :
    sumDays (days.set i (some v)) = sumDays days + v := by
  induction days generalizing i with
  | nil => simp at h
  | cons a l ih =>
    cases i with
    | zero =>
      simp only [List.getElem?_cons_zero, Option.some.injEq] at h
      subst h
      simp [sumDays_cons]
      omega
    | succ n =>
      simp only [List.getElem?_cons_succ] at h
      simp [sumDays_cons, ih h]
      omega

theorem foldl_dayStep_sum (store : List Snapshot) (gameDays : List Nat)
    (loaded : List Snapshot) (eid monday : Int) :
    ∀ (l : List Nat) (arr : List (Option Int)) (t : Int), l.Nodup →
      (∀ i ∈ l, arr[i]? = some none) →
      (l.foldl (dayStep store gameDays loaded eid monday) (arr, t)).2
        = t + (sumDays (l.foldl (dayStep store gameDays loaded eid monday) (arr, t)).1
               - sumDays arr) := by
  intro l
  induction l with
  | nil => intro arr t _ _; simp
  | cons i l ih =>
    intro arr t hnd hpre
    have hin : arr[i]? = some none := hpre i (List.mem_cons_self i l)
    rcases List.nodup_cons.mp hnd with ⟨hni, hndl⟩
    rcases h : daySlot store gameDays loaded eid monday i with _ | v
    · have hstep : dayStep store gameDays loaded eid monday (arr, t) i = (arr, t) := by
        simp [dayStep, h]
      rw [List.foldl_cons, hstep]
      exact ih arr t hndl (fun j hj => hpre j (List.mem_cons_of_mem i hj))
    · have hstep : dayStep store gameDays loaded eid monday (arr, t) i
          = (arr.set i (some v), t + v) := by
        simp [dayStep, h]
      rw [List.foldl_cons, hstep]
      have hpre2 : ∀ j ∈ l, (arr.set i (some v))[j]? = some none := by
        intro j hj
        have hne : i ≠ j := fun hij => hni (hij ▸ hj)
        rw [List.getElem?_set_ne hne]
        exact hpre j (List.mem_cons_of_mem i hj)
      have := ih (arr.set i (some v)) (t + v) hndl hpre2
      rw [this, sumDays_set hin]
      omega

theorem buildWeek_total_eq (store : List Snapshot) (gameDays : List Nat)
    (loaded : List Snapshot) (eid monday : Int) :
    (buildWeek store gameDays loaded eid monday).2
      = sumDays (buildWeek store gameDays loaded eid monday).1 := by
  have h := foldl_dayStep_sum store gameDays loaded eid monday (List.range 7)
    (List.replicate 7 none) 0 (List.nodup_range 7)
    (by intro i hi; exact List.getElem?_replicate_of_lt (List.mem_range.mp hi))
  have hz : sumDays (List.replicate 7 (none : Option Int)) = 0 := rfl
  rw [hz] at h
  unfold buildWeek
  omega

theorem foldl_dayStep_length (store : List Snapshot) (gameDays : List Nat)
    (loaded : List Snapshot) (eid monday : Int) :
    ∀ (l : List Nat) (arr : List (Option Int)) (t : Int),
      (l.foldl (dayStep store gameDays loaded eid monday) (arr, t)).1.length = arr.length := by
  intro l
  induction l with
  | nil => intro arr t; rfl
  | cons i l ih =>
    intro arr t
    rcases h : daySlot store gameDays loaded eid monday i with _ | v
    · rw [List.foldl_cons]
      have hstep : dayStep store gameDays loaded eid monday (arr, t) i = (arr, t) := by
        simp [dayStep, h]
      rw [hstep]; exact ih arr t
    · rw [List.foldl_cons]
      have hstep : dayStep store gameDays loaded eid monday (arr, t) i
          = (arr.set i (some v), t + v) := by
        simp [dayStep, h]
      rw [hstep, ih]
      simp

theorem foldl_dayStep_getElem_not_mem (store : List Snapshot) (gameDays : List Nat)
    (loaded : List Snapshot) (eid monday : Int) :
    ∀ (l : List Nat) (arr : List (Option Int)) (t : Int) (i : Nat), i ∉ l →
      (l.foldl (dayStep store gameDays loaded eid monday) (arr, t)).1[i]? = arr[i]? := by
  intro l
  induction l with
  | nil => intro arr t i _; rfl
  | cons j l ih =>
    intro arr t i hni
    have hij : j ≠ i := fun h => hni (h ▸ List.mem_cons_self j l)
    have hnl : i ∉ l := fun h => hni (List.mem_cons_of_mem j h)
    rcases h : daySlot store gameDays loaded eid monday j with _ | v
    · rw [List.foldl_cons]
      have hstep : dayStep store gameDays loaded eid monday (arr, t) j = (arr, t) := by
        simp [dayStep, h]
      rw [hstep]; exact ih arr t i hnl
    · rw [List.foldl_cons]
      have hstep : dayStep store gameDays loaded eid monday (arr, t) j
          = (arr.set j (some v), t + v) := by
        simp [dayStep, h]
      rw [hstep, ih _ _ _ hnl, List.getElem?_set_ne hij]

theorem foldl_dayStep_getElem_mem (store : List Snapshot) (gameDays : List Nat)
    (loaded : List Snapshot) (eid monday : Int) :
    ∀ (l : List Nat) (arr : List (Option Int)) (t : Int) (i : Nat), l.Nodup → i ∈ l →
      i < arr.length → arr[i]? = some none →
      (l.foldl (dayStep store gameDays loaded eid monday) (arr, t)).1[i]?
        = some (daySlot store gameDays loaded eid monday i) := by
  intro l
  induction l with
  | nil => intro arr t i _ hi; cases hi
  | cons j l ih =>
    intro arr t i hnd hi hlen hcell
    rcases List.nodup_cons.mp hnd with ⟨hnj, hndl⟩
    by_cases hij : i = j
    · subst hij
      have hnl : i ∉ l := hnj
      rcases h : daySlot store gameDays loaded eid monday i with _ | v
      · rw [List.foldl_cons]
        have hstep : dayStep store gameDays loaded eid monday (arr, t) i = (arr, t) := by
          simp [dayStep, h]
        rw [hstep, foldl_dayStep_getElem_not_mem store gameDays loaded eid monday l arr t i hnl,
          hcell]
      · rw [List.foldl_cons]
        have hstep : dayStep store gameDays loaded eid monday (arr, t) i
            = (arr.set i (some v), t + v) := by
          simp [dayStep, h]
        rw [hstep,
          foldl_dayStep_getElem_not_mem store gameDays loaded eid monday l _ _ i hnl,
          List.getElem?_set_self hlen]
    · have hil : i ∈ l := by
        rcases List.mem_cons.mp hi with h | h
        · exact absurd h hij
        · exact h
      rcases h : daySlot store gameDays loaded eid monday j with _ | v
      · rw [List.foldl_cons]
        have hstep : dayStep store gameDays loaded eid monday (arr, t) j = (arr, t) := by
          simp [dayStep, h]
        rw [hstep]
        exact ih arr t i hndl hil hlen hcell
      · rw [List.foldl_cons]
        have hstep : dayStep store gameDays loaded eid monday (arr, t) j
            = (arr.set j (some v), t + v) := by
          simp [dayStep, h]
        rw [hstep]
        refine ih _ _ i hndl hil (by simpa using hlen) ?_
        rw [List.getElem?_set_ne (fun h => hij h.symm)]
        exact hcell

theorem buildWeek_days_getElem (store : List Snapshot) (gameDays : List Nat)
    (loaded : List Snapshot) (eid monday : Int) (i : Nat) (hi : i < 7) :
    (buildWeek store gameDays loaded eid monday).1[i]?
      = some (daySlot store gameDays loaded eid monday i) := by
  unfold buildWeek
  exact foldl_dayStep_getElem_mem store gameDays loaded eid monday (List.range 7)
    (List.replicate 7 none) 0 i (List.nodup_range 7) (List.mem_range.mpr hi)
    (by simpa using hi) (List.getElem?_replicate_of_lt hi)

theorem buildWeek_days_length (store : List Snapshot) (gameDays : List Nat)
    (loaded : List Snapshot) (eid monday : Int) :
    (buildWeek store gameDays loaded eid monday).1.length = 7 := by
  unfold buildWeek
  rw [foldl_dayStep_length]
  rfl

theorem mem_assignRanks {r : Row} :
    ∀ {n : Nat} {l : List Row}, r ∈ assignRanks n l →
      ∃ r0 ∈ l, ∃ m : Nat, r = { r0 with rank := m } := by
  intro n l
  induction l generalizing n with
  | nil => intro h; cases h
  | cons a l ih =>
    intro h
    rcases List.mem_cons.mp h with h | h
    · exact ⟨a, List.mem_cons_self a l, n + 1, h⟩
    · rcases ih h with ⟨r0, hr0, m, hm⟩
      exact ⟨r0, List.mem_cons_of_mem a hr0, m, hm⟩

theorem assignRanks_getElem? :
    ∀ (n : Nat) (l : List Row) (k : Nat),
      (assignRanks n l)[k]? = (l[k]?).map (fun r => { r with rank := n + k + 1 }) := by
  intro n l
  induction l generalizing n with
  | nil => intro k; simp [assignRanks]
  | cons a l ih =>
    intro k
    cases k with
    | zero => simp [assignRanks]
    | succ k =>
      simp only [assignRanks, List.getElem?_cons_succ, ih (n + 1) k]
      have : n + 1 + k + 1 = n + (k + 1) + 1 := by omega
      rw [this]

theorem assignRanks_length : ∀ (n : Nat) (l : List Row), (assignRanks n l).length = l.length := by
  intro n l
  induction l generalizing n with
  | nil => rfl
  | cons a l ih => simp [assignRanks, ih]

theorem assignRanks_map_rowData :
    ∀ (n : Nat) (l : List Row), (assignRanks n l).map rowData = l.map rowData := by
  intro n l
  induction l generalizing n with
  | nil => rfl
  | cons a l ih => simp [assignRanks, ih, rowData]

theorem setMovement_rowData (yMap : List (Int × Nat)) (r : Row) :
    rowData (setMovement yMap r) = rowData r := by
  unfold setMovement
  cases h : yMap.lookup r.entry <;> simp [rowData]

theorem setMovement_rank (yMap : List (Int × Nat)) (r : Row) :
    (setMovement yMap r).rank = r.rank := by
  unfold setMovement
  cases h : yMap.lookup r.entry <;> simp

theorem setMovement_entry (yMap : List (Int × Nat)) (r : Row) :
    (setMovement yMap r).entry = r.entry := by
  unfold setMovement
  cases h : yMap.lookup r.entry <;> simp

theorem clearMovement_rowData (r : Row) : rowData (clearMovement r) = rowData r := rfl

theorem clearMovement_rank (r : Row) : (clearMovement r).rank = r.rank := rfl

theorem mem_weeklyRows {store loaded : List Snapshot} {gameDays : List Nat} {monday : Int}
    {r : Row} (h : r ∈ weeklyRows store gameDays loaded monday) :
    r.entry ∈ entryIds loaded
    ∧ r.days = (buildWeek store gameDays loaded r.entry monday).1
    ∧ r.total = (buildWeek store gameDays loaded r.entry monday).2 := by
  rcases List.mem_map.mp h with ⟨eid, hid, heq⟩
  subst heq
  exact ⟨hid, rfl, rfl⟩

theorem compute_eq_some {store : List Snapshot} {gameDays : List Nat} {today : Int}
    {rows : List Row} (h : compute_weekly_ranking store gameDays today = some rows) :
    rows = computeRows store gameDays today := by
  unfold compute_weekly_ranking at h
  split at h
  · cases h
  · exact (Option.some.injEq _ _ ▸ h).symm

theorem mem_computeRows {store : List Snapshot} {gameDays : List Nat} {today : Int}
    {r : Row} (hr : r ∈ computeRows store gameDays today) :
    ∃ r0 ∈ weeklyRows store gameDays
        (loadWeekSnapshots store (get_week_bounds today).1 today) (get_week_bounds today).1,
      rowData r = rowData r0 ∧ ∃ m : Nat, r.rank = m := by
  unfold computeRows at hr
  split at hr
  · rcases List.mem_map.mp hr with ⟨r1, hr1, heq⟩
    unfold rankedRows at hr1
    rcases mem_assignRanks hr1 with ⟨r0, hr0, m, hm⟩
    refine ⟨r0, List.mem_mergeSort.mp hr0, ?_, r.rank, rfl⟩
    subst heq
    rw [setMovement_rowData, hm]
    simp [rowData]
  · rcases List.mem_map.mp hr with ⟨r1, hr1, heq⟩
    unfold rankedRows at hr1
    rcases mem_assignRanks hr1 with ⟨r0, hr0, m, hm⟩
    refine ⟨r0, List.mem_mergeSort.mp hr0, ?_, r.rank, rfl⟩
    subst heq
    rw [clearMovement_rowData, hm]
    simp [rowData]

theorem rowData_fields {a b : Row} (h : rowData a = rowData b) :
    a.entry = b.entry ∧ a.days = b.days ∧ a.total = b.total := by
  unfold rowData at h
  exact ⟨congrArg (fun p => p.1) h, congrArg (fun p => p.2.1) h,
    congrArg (fun p => p.2.2) h⟩

/-! ## Claims -/

/-- C1: for every output row of `compute_weekly_ranking`, the weekly total
equals the sum of the non-null entries of that row's 7-element days array;
null slots contribute nothing to the total. -/
theorem C1_weekly_total_is_sum_of_days
    (store : List Snapshot) (gameDays : List Nat) (today : Int) (rows : List Row) (r : Row)
    (h : compute_weekly_ranking store gameDays today = some rows) (hr : r ∈ rows) :
    r.total = sumDays r.days ∧ r.days.length = 7 := by
  rw [compute_eq_some h] at hr
  rcases mem_computeRows hr with ⟨r0, hr0, hdata, _⟩
  rcases rowData_fields hdata with ⟨_, hdays, htotal⟩
  rcases mem_weeklyRows hr0 with ⟨_, hdays0, htotal0⟩
  refine ⟨?_, ?_⟩
  · rw [htotal, htotal0, hdays, hdays0]
    exact buildWeek_total_eq _ _ _ _ _
  · rw [hdays, hdays0]
    exact buildWeek_days_length _ _ _ _ _

unseal List.merge List.mergeSort in
theorem C1_weekly_total_is_sum_of_days_witness :
    compute_weekly_ranking [⟨0, [⟨1, "p", "e", 50⟩]⟩] [0] 0
      = some [⟨1, "p", "e", [some 0, none, none, none, none, none, none], 0, 1, 0⟩]
    ∧ ((⟨1, "p", "e", [some 0, none, none, none, none, none, none], 0, 1, 0⟩ : Row).total
        = sumDays (⟨1, "p", "e", [some 0, none, none, none, none, none, none], 0, 1, 0⟩ : Row).days
      ∧ (⟨1, "p", "e", [some 0, none, none, none, none, none, none], 0, 1, 0⟩ : Row).days.length
          = 7) :=
  ⟨rfl, C1_weekly_total_is_sum_of_days [⟨0, [⟨1, "p", "e", 50⟩]⟩] [0] 0 _ _ rfl
    (List.mem_singleton.mpr rfl)⟩

/-- C2 (amended): for a game-day slot with a resolved current total and a
resolved previous reference total, the stored day delta is
`(current − prev)` floor-divided by 10 (Python `//`, rounding toward
negative infinity, not toward zero); a decrease of the cumulative total
yields a negative delta, stored unclamped. -/
theorem C2_day_delta_floor_division
    (store loaded : List Snapshot) (gameDays : List Nat) (eid monday : Int) (i : Nat)
    (current prev : Int)
    (hg : gameDays.contains i = true)
    (hc : totalOf loaded eid (monday + (i : Int)) = some current)
    (hp : resolvePrev store loaded eid monday i = some prev) :
    daySlot store gameDays loaded eid monday i
      = some ((current - prev).fdiv POINTS_DIVISOR)
    ∧ (current < prev → (current - prev).fdiv POINTS_DIVISOR < 0) := by
  have hg' : i ∈ gameDays := by simpa using hg
  constructor
  · simp [daySlot, hg', hc, hp]
  · intro hlt
    exact Int.fdiv_neg' (by omega) (by decide)

unseal List.merge List.mergeSort in
/-- C2 witness: with totals 100 then 85 on consecutive game days, the delta
slot holds `(85 − 100).fdiv 10 = −2 < 0`. -/
theorem C2_day_delta_floor_division_witness :
    ([0, 1] : List Nat).contains 1 = true
    ∧ totalOf (loadWeekSnapshots [⟨0, [⟨1, "a", "a", 100⟩]⟩, ⟨1, [⟨1, "a", "a", 85⟩]⟩] 0 1)
        1 ((0 : Int) + ((1 : Nat) : Int)) = some 85
    ∧ resolvePrev [⟨0, [⟨1, "a", "a", 100⟩]⟩, ⟨1, [⟨1, "a", "a", 85⟩]⟩]
        (loadWeekSnapshots [⟨0, [⟨1, "a", "a", 100⟩]⟩, ⟨1, [⟨1, "a", "a", 85⟩]⟩] 0 1)
        1 0 1 = some 100
    ∧ (daySlot [⟨0, [⟨1, "a", "a", 100⟩]⟩, ⟨1, [⟨1, "a", "a", 85⟩]⟩] [0, 1]
        (loadWeekSnapshots [⟨0, [⟨1, "a", "a", 100⟩]⟩, ⟨1, [⟨1, "a", "a", 85⟩]⟩] 0 1)
        1 0 1 = some (((85 : Int) - 100).fdiv POINTS_DIVISOR)
      ∧ ((85 : Int) < 100 → ((85 : Int) - 100).fdiv POINTS_DIVISOR < 0)) :=
  ⟨rfl, rfl, rfl,
    C2_day_delta_floor_division _ _ [0, 1] 1 0 1 85 100 rfl rfl rfl⟩

unseal List.merge List.mergeSort in
/-- C2 counterexample: the claim says the division truncates toward zero,
but Python `//` floors.  With a cumulative decrease of 15 (ten-fold scale),
the code stores `(85 − 100) // 10 = −2`, while truncation toward zero gives
`Int.tdiv (85 − 100) 10 = −1`. -/
theorem C2_day_delta_truncation_cex :
    daySlot [⟨0, [⟨1, "a", "a", 100⟩]⟩, ⟨1, [⟨1, "a", "a", 85⟩]⟩] [0, 1]
        (loadWeekSnapshots [⟨0, [⟨1, "a", "a", 100⟩]⟩, ⟨1, [⟨1, "a", "a", 85⟩]⟩] 0 1)
        1 0 1 = some (-2)
    ∧ Int.tdiv ((85 : Int) - 100) 10 = -1
    ∧ ((-2 : Int) ≠ -1) :=
  ⟨rfl, rfl, by decide⟩

/-- C4: on a game day with a snapshot total for the participant but no
resolvable previous reference (no earlier in-week appearance, no pre-week
total), the delta is the integer `0`, not null, and the loop step adds `0`
to the running weekly total. -/
theorem C4_no_reference_delta_is_zero
    (store loaded : List Snapshot) (gameDays : List Nat) (eid monday : Int) (i : Nat)
    (current : Int)
    (hg : gameDays.contains i = true)
    (hc : totalOf loaded eid (monday + (i : Int)) = some current)
    (hw : findPrevInWeek loaded eid monday i = none)
    (hp : pre_week_totals store monday eid = none) :
    daySlot store gameDays loaded eid monday i = some 0
    ∧ ∀ acc : List (Option Int) × Int,
        dayStep store gameDays loaded eid monday acc i = (acc.1.set i (some 0), acc.2) := by
  have hg' : i ∈ gameDays := by simpa using hg
  have hslot : daySlot store gameDays loaded eid monday i = some 0 := by
    simp [daySlot, hg', hc, resolvePrev, hw, hp]
  refine ⟨hslot, ?_⟩
  intro acc
  simp [dayStep, hslot]

unseal List.merge List.mergeSort in
/-- C4 witness: a single Monday-only snapshot with no pre-week history:
the Monday slot is `0`. -/
theorem C4_no_reference_delta_is_zero_witness :
    ([0] : List Nat).contains 0 = true
    ∧ totalOf (loadWeekSnapshots [⟨0, [⟨1, "p", "e", 50⟩]⟩] 0 0) 1 ((0 : Int) + ((0 : Nat) : Int))
        = some 50
    ∧ findPrevInWeek (loadWeekSnapshots [⟨0, [⟨1, "p", "e", 50⟩]⟩] 0 0) 1 0 0 = none
    ∧ pre_week_totals [⟨0, [⟨1, "p", "e", 50⟩]⟩] 0 1 = none
    ∧ daySlot [⟨0, [⟨1, "p", "e", 50⟩]⟩] [0] (loadWeekSnapshots [⟨0, [⟨1, "p", "e", 50⟩]⟩] 0 0)
        1 0 0 = some 0 :=
  ⟨rfl, rfl, rfl, rfl,
    (C4_no_reference_delta_is_zero [⟨0, [⟨1, "p", "e", 50⟩]⟩]
      (loadWeekSnapshots [⟨0, [⟨1, "p", "e", 50⟩]⟩] 0 0) [0] 1 0 0 50
      rfl rfl rfl rfl).1⟩

/-- C8 (amended): the calendar resolver skips an event whose
`deadline_time` is missing or empty silently and continues with the
remaining events; but an event whose deadline string is present and
unparseable makes `datetime.fromisoformat` raise, aborting the whole
computation. -/
theorem C8_missing_deadline_skipped (monday sunday : Int) (e : Event) (events : List Event) :
    (e.deadline_time = none →
      get_game_dates_for_week (e :: events) monday sunday
        = get_game_dates_for_week events monday sunday)
    ∧ (e.deadline_time = some none →
      get_game_dates_for_week (e :: events) monday sunday = Except.error ()) := by
  obtain ⟨eid, dt⟩ := e
  constructor
  · intro h
    simp only at h
    subst h
    rfl
  · intro h
    simp only at h
    subst h
    rfl

/-- C8 witness: an event with a missing deadline is skipped; an event with
an unparseable deadline aborts. -/
theorem C8_missing_deadline_skipped_witness :
    (get_game_dates_for_week [⟨1, none⟩] 0 6 = get_game_dates_for_week [] 0 6)
    ∧ (get_game_dates_for_week [⟨2, some none⟩] 0 6 = Except.error ()) :=
  ⟨(C8_missing_deadline_skipped 0 6 ⟨1, none⟩ []).1 rfl,
    (C8_missing_deadline_skipped 0 6 ⟨2, some none⟩ []).2 rfl⟩

/-- C8 counterexample: the claim says a malformed event record never aborts
the whole computation, but one present-and-unparseable deadline makes the
resolver raise, and the remaining (well-formed) events are never
processed. -/
theorem C8_unparseable_aborts_cex :
    get_game_dates_for_week [⟨1, some none⟩, ⟨2, some (some 400)⟩] 0 6 = Except.error ()
    ∧ get_game_dates_for_week [⟨2, some (some 400)⟩] 0 6 = Except.ok [(0, [2])] :=
  ⟨rfl, rfl⟩

/-- C9: when no snapshot exists for any date of the current week up to
today, the aggregator returns `None` — an explicit cannot-compute outcome,
distinct from any table (in particular from an empty one) — and `main`'s
write guard does not overwrite the previous output file. -/
theorem C9_no_snapshots_cannot_compute
    (store : List Snapshot) (gameDays : List Nat) (today : Int)
    (h : ∀ d : Int, (get_week_bounds today).1 ≤ d → d ≤ today →
      load_daily_snapshot store d = none) :
    compute_weekly_ranking store gameDays today = none
    ∧ mainWritesOutput (compute_weekly_ranking store gameDays today) = false
    ∧ ∀ rows : List Row, compute_weekly_ranking store gameDays today ≠ some rows := by
  have hload : loadWeekSnapshots store (get_week_bounds today).1 today = [] := by
    unfold loadWeekSnapshots
    rw [List.filterMap_eq_nil_iff]
    intro i hi
    have hle : (get_week_bounds today).1 + (i : Int) ≤ today := by
      have := List.mem_takeWhile_imp hi
      simpa using this
    exact h _ (by omega) hle
  have hc : compute_weekly_ranking store gameDays today = none := by
    unfold compute_weekly_ranking
    rw [hload]
    rfl
  refine ⟨hc, by rw [hc]; rfl, ?_⟩
  intro rows hr
  rw [hc] at hr
  cases hr

/-- C9 witness: the empty store has no snapshot at all. -/
theorem C9_no_snapshots_cannot_compute_witness :
    compute_weekly_ranking [] [0] 0 = none
    ∧ mainWritesOutput (compute_weekly_ranking [] [0] 0) = false
    ∧ ∀ rows : List Row, compute_weekly_ranking [] [0] 0 ≠ some rows :=
  C9_no_snapshots_cannot_compute [] [0] 0 (fun _ _ _ => rfl)

unseal List.merge List.mergeSort in
/-- C3 counterexample: on day 0 a snapshot exists (and day 0 is a game day,
not after today), yet the participant first captured on day 1 has
`days[0] = null`, because that slot requires the participant to appear in
day 0's snapshot, not merely that the snapshot exists. -/
theorem C3_snapshot_without_participant_cex :
    compute_weekly_ranking
        [⟨0, [⟨1, "a", "a", 100⟩]⟩, ⟨1, [⟨1, "a", "a", 110⟩, ⟨2, "b", "b", 200⟩]⟩] [0, 1] 1
      = some [⟨1, "a", "a", [some 0, some 1, none, none, none, none, none], 1, 1, 0⟩,
              ⟨2, "b", "b", [none, some 0, none, none, none, none, none], 0, 2, 0⟩]
    ∧ (load_daily_snapshot
        [⟨0, [⟨1, "a", "a", 100⟩]⟩, ⟨1, [⟨1, "a", "a", 110⟩, ⟨2, "b", "b", 200⟩]⟩] 0).isSome
        = true
    ∧ ([0, 1] : List Nat).contains 0 = true
    ∧ ((0 : Int) ≤ 1)
    ∧ (⟨2, "b", "b", [none, some 0, none, none, none, none, none], 0, 2, 0⟩ : Row).days[0]?
        = some none :=
  ⟨rfl, rfl, rfl, by decide, rfl⟩

/-- C3 (amended): for every output row and day index `i < 7`, `days[i]` is
null exactly when `i` is not a game day or the participant has no entry in
that date's loaded snapshot (in particular when no snapshot exists for the
date, or the date is after today); when `i` is a game day and the loaded
snapshot of that date contains the participant, `days[i]` is an integer. -/
theorem C3_days_null_iff_no_entry
    (store : List Snapshot) (gameDays : List Nat) (today : Int) (rows : List Row) (r : Row)
    (i : Nat) (hi : i < 7)
    (h : compute_weekly_ranking store gameDays today = some rows) (hr : r ∈ rows) :
    (r.days[i]? = some none ↔
      ¬(gameDays.contains i = true
        ∧ (totalOf (loadWeekSnapshots store (get_week_bounds today).1 today) r.entry
            ((get_week_bounds today).1 + (i : Int))).isSome = true))
    ∧ ((gameDays.contains i = true
        ∧ (totalOf (loadWeekSnapshots store (get_week_bounds today).1 today) r.entry
            ((get_week_bounds today).1 + (i : Int))).isSome = true) →
        ∃ v : Int, r.days[i]? = some (some v)) := by
  rw [compute_eq_some h] at hr
  rcases mem_computeRows hr with ⟨r0, hr0, hdata, _⟩
  rcases rowData_fields hdata with ⟨hentry, hdays, _⟩
  rcases mem_weeklyRows hr0 with ⟨_, hdays0, _⟩
  have hget : r.days[i]? = some (daySlot store gameDays
      (loadWeekSnapshots store (get_week_bounds today).1 today) r.entry
      (get_week_bounds today).1 i) := by
    rw [hdays, hdays0, ← hentry]
    exact buildWeek_days_getElem store gameDays _ r.entry _ i hi
  rw [hget]
  rcases hcont : gameDays.contains i with _ | _
  · have hslot : daySlot store gameDays
        (loadWeekSnapshots store (get_week_bounds today).1 today) r.entry
        (get_week_bounds today).1 i = none := by
      unfold daySlot
      rw [hcont]
      rfl
    rw [hslot]
    constructor
    · simp
    · intro hcond
      rcases hcond with ⟨hcond, _⟩
      cases hcond
  · rcases htot : totalOf (loadWeekSnapshots store (get_week_bounds today).1 today) r.entry
        ((get_week_bounds today).1 + (i : Int)) with _ | c
    · have hslot : daySlot store gameDays
          (loadWeekSnapshots store (get_week_bounds today).1 today) r.entry
          (get_week_bounds today).1 i = none := by
        unfold daySlot
        rw [hcont, htot]
        simp
      rw [hslot]
      constructor
      · simp [htot]
      · intro hcond
        simp at hcond
    · have hslot : ∃ v : Int, daySlot store gameDays
          (loadWeekSnapshots store (get_week_bounds today).1 today) r.entry
          (get_week_bounds today).1 i = some v := by
        unfold daySlot
        rw [hcont, htot]
        rcases hprev : resolvePrev store
            (loadWeekSnapshots store (get_week_bounds today).1 today) r.entry
            (get_week_bounds today).1 i with _ | p
        · exact ⟨0, by simp⟩
        · exact ⟨(c - p).fdiv POINTS_DIVISOR, by simp⟩
      rcases hslot with ⟨v, hslot⟩
      rw [hslot]
      constructor
      · simp [htot]
      · intro _
        exact ⟨v, rfl⟩

unseal List.merge List.mergeSort in
/-- C3 witness (for the amended theorem): a store with one Monday snapshot,
evaluated at the non-game-day index 1. -/
theorem C3_days_null_iff_no_entry_witness :
    compute_weekly_ranking [⟨0, [⟨1, "p", "e", 50⟩]⟩] [0] 0
      = some [⟨1, "p", "e", [some 0, none, none, none, none, none, none], 0, 1, 0⟩]
    ∧ (((⟨1, "p", "e", [some 0, none, none, none, none, none, none], 0, 1, 0⟩ : Row).days[1]?
          = some none ↔
        ¬(([0] : List Nat).contains 1 = true
          ∧ (totalOf (loadWeekSnapshots [⟨0, [⟨1, "p", "e", 50⟩]⟩] (get_week_bounds 0).1 0)
              (⟨1, "p", "e", [some 0, none, none, none, none, none, none], 0, 1, 0⟩ : Row).entry
              ((get_week_bounds 0).1 + ((1 : Nat) : Int))).isSome = true))
      ∧ ((([0] : List Nat).contains 1 = true
          ∧ (totalOf (loadWeekSnapshots [⟨0, [⟨1, "p", "e", 50⟩]⟩] (get_week_bounds 0).1 0)
              (⟨1, "p", "e", [some 0, none, none, none, none, none, none], 0, 1, 0⟩ : Row).entry
              ((get_week_bounds 0).1 + ((1 : Nat) : Int))).isSome = true) →
          ∃ v : Int,
            (⟨1, "p", "e", [some 0, none, none, none, none, none, none], 0, 1, 0⟩ : Row).days[1]?
              = some (some v))) :=
  ⟨rfl, C3_days_null_iff_no_entry [⟨0, [⟨1, "p", "e", 50⟩]⟩] [0] 0 _ _ 1 (by decide) rfl
    (List.mem_singleton.mpr rfl)⟩

theorem takeWhile_eq_filter_of_antitone {p : Nat → Bool}
    (hmono : ∀ i j : Nat, i ≤ j → p j = true → p i = true) :
    ∀ l : List Nat, l.Pairwise (· ≤ ·) → l.takeWhile p = l.filter p := by
  intro l
  induction l with
  | nil => intro _; rfl
  | cons a l ih =>
    intro hp
    rcases List.pairwise_cons.mp hp with ⟨ha, hl⟩
    rcases hpa : p a with _ | _
    · have hnil : l.filter p = [] := by
        rw [List.filter_eq_nil_iff]
        intro x hx hpx
        have := hmono a x (ha x hx) hpx
        rw [hpa] at this
        cases this
      simp [List.takeWhile_cons, List.filter_cons, hpa, hnil]
    · simp [List.takeWhile_cons, List.filter_cons, hpa, ih hl]

theorem dayStep_snd (store : List Snapshot) (gameDays : List Nat) (loaded : List Snapshot)
    (eid monday : Int) (acc : List (Option Int) × Int) (i : Nat) :
    (dayStep store gameDays loaded eid monday acc i).2
      = match ydaySlot store gameDays loaded eid monday i with
        | some v => acc.2 + v
        | none => acc.2 := by
  unfold dayStep daySlot ydaySlot
  rcases hcont : gameDays.contains i with _ | _
  · simp
  · rcases htot : totalOf loaded eid (monday + (i : Int)) with _ | c
    · simp
    · rcases hprev : resolvePrev store loaded eid monday i with _ | p
      · simp
      · simp

theorem foldl_dayStep_snd_eq_yfold (store : List Snapshot) (gameDays : List Nat)
    (loaded : List Snapshot) (eid monday : Int) :
    ∀ (l : List Nat) (arr : List (Option Int)) (t : Int),
      (l.foldl (dayStep store gameDays loaded eid monday) (arr, t)).2
        = l.foldl (fun t2 i =>
            match ydaySlot store gameDays loaded eid monday i with
            | some v => t2 + v
            | none => t2) t := by
  intro l
  induction l with
  | nil => intro arr t; rfl
  | cons i l ih =>
    intro arr t
    rw [List.foldl_cons, List.foldl_cons]
    have h2 := ih (dayStep store gameDays loaded eid monday (arr, t) i).1
      (dayStep store gameDays loaded eid monday (arr, t) i).2
    rw [Prod.mk.eta] at h2
    rw [h2, dayStep_snd]

/-- C7: the yesterday-total computed inside the movement block equals the
weekly total that the §4.2 per-day delta/sum logic yields when restricted
to day-indices whose date is ≤ yesterday (same game-day filter, same
backward scan, same pre-week fallback), and yesterday's ranking is the
identical stable descending sort with 1-based rank assignment applied to
those truncated totals. -/
theorem C7_yesterday_refines_truncated_aggregation
    (store : List Snapshot) (gameDays : List Nat) (loaded : List Snapshot)
    (eid monday yesterday : Int) :
    yesterdayTotal store gameDays loaded eid monday yesterday
      = weekTotalUpTo store gameDays loaded eid monday yesterday
    ∧ yesterdayRankMap store gameDays loaded monday yesterday
      = assignPairRanks 0 (((entryIds loaded).map
          (fun eid2 => (eid2, weekTotalUpTo store gameDays loaded eid2 monday yesterday))).mergeSort
            pairLE) := by
  have hmono : ∀ i j : Nat, i ≤ j →
      (fun (x : Nat) => decide (monday + (x : Int) ≤ yesterday)) j = true →
      (fun (x : Nat) => decide (monday + (x : Int) ≤ yesterday)) i = true := by
    intro i j hij hj
    simp only [decide_eq_true_eq] at hj
    simp only [decide_eq_true_eq]
    omega
  have htotal : ∀ e : Int, yesterdayTotal store gameDays loaded e monday yesterday
      = weekTotalUpTo store gameDays loaded e monday yesterday := by
    intro e
    unfold yesterdayTotal weekTotalUpTo
    rw [← takeWhile_eq_filter_of_antitone hmono (List.range 7) (List.sorted_le_range 7)]
    exact (foldl_dayStep_snd_eq_yfold store gameDays loaded e monday _ _ _).symm
  refine ⟨htotal eid, ?_⟩
  unfold yesterdayRankMap yesterdayPairs
  have hpairs : (entryIds loaded).map
      (fun eid2 => (eid2, yesterdayTotal store gameDays loaded eid2 monday yesterday))
      = (entryIds loaded).map
        (fun eid2 => (eid2, weekTotalUpTo store gameDays loaded eid2 monday yesterday)) :=
    List.map_congr_left (fun e _ => by rw [htotal e])
  rw [hpairs]

/-- C6: each participant's movement is yesterday's rank minus today's rank,
with the convention that a participant absent from yesterday's rank map
gets 0; and when fewer than two distinct snapshot dates exist this week, or
yesterday's date has no snapshot, every participant's movement is 0. -/
theorem C6_movement_rule
    (store : List Snapshot) (gameDays : List Nat) (today : Int) (rows : List Row)
    (h : compute_weekly_ranking store gameDays today = some rows) :
    (movementCond (loadWeekSnapshots store (get_week_bounds today).1 today) (today - 1) = false →
      ∀ r ∈ rows, r.movement = 0)
    ∧ (movementCond (loadWeekSnapshots store (get_week_bounds today).1 today) (today - 1) = true →
      ∀ r ∈ rows,
        r.movement = ((yesterdayRankMap store gameDays
            (loadWeekSnapshots store (get_week_bounds today).1 today)
            (get_week_bounds today).1 (today - 1)).lookup r.entry).elim
          0 (fun y => (y : Int) - (r.rank : Int))) := by
  rw [compute_eq_some h]
  unfold computeRows
  rcases hcond : movementCond (loadWeekSnapshots store (get_week_bounds today).1 today)
      (today - 1) with _ | _
  · rw [if_neg (by simp)]
    constructor
    · intro _ r hr
      rcases List.mem_map.mp hr with ⟨r1, _, heq⟩
      subst heq
      rfl
    · intro hcontra
      cases hcontra
  · rw [if_pos rfl]
    constructor
    · intro hcontra
      cases hcontra
    · intro _ r hr
      rcases List.mem_map.mp hr with ⟨r1, hr1, heq⟩
      subst heq
      rw [setMovement_entry, setMovement_rank]
      unfold setMovement
      rcases hl : (yesterdayRankMap store gameDays
          (loadWeekSnapshots store (get_week_bounds today).1 today)
          (get_week_bounds today).1 (today - 1)).lookup r1.entry with _ | y
      · simp
      · simp

unseal List.merge List.mergeSort in
/-- C6 witness: two consecutive snapshots, so the movement block runs and
the single participant's movement is `1 − 1 = 0`. -/
theorem C6_movement_rule_witness :
    compute_weekly_ranking wStore2 [0, 1] 1 = some [wRow2]
    ∧ ((movementCond (loadWeekSnapshots wStore2 (get_week_bounds 1).1 1) ((1 : Int) - 1) = false →
        ∀ r ∈ [wRow2], r.movement = 0)
      ∧ (movementCond (loadWeekSnapshots wStore2 (get_week_bounds 1).1 1) ((1 : Int) - 1) = true →
        ∀ r ∈ [wRow2],
          r.movement = ((yesterdayRankMap wStore2 [0, 1]
              (loadWeekSnapshots wStore2 (get_week_bounds 1).1 1)
              (get_week_bounds 1).1 ((1 : Int) - 1)).lookup r.entry).elim
            0 (fun y => (y : Int) - (r.rank : Int)))) :=
  ⟨rfl, C6_movement_rule wStore2 [0, 1] 1 [wRow2] rfl⟩

theorem lookup_assignPairRanks :
    ∀ (n : Nat) (l : List (Int × Int)) (eid : Int), eid ∈ l.map Prod.fst →
      ∃ y : Nat, (assignPairRanks n l).lookup eid = some y := by
  intro n l
  induction l generalizing n with
  | nil => intro eid h; cases h
  | cons p rest ih =>
    intro eid h
    obtain ⟨a, t⟩ := p
    by_cases heq : eid = a
    · subst heq
      exact ⟨n + 1, by simp [assignPairRanks, List.lookup]⟩
    · have hmem : eid ∈ rest.map Prod.fst := by
        rw [List.map_cons] at h
        rcases List.mem_cons.mp h with h1 | h1
        · exact absurd h1 heq
        · exact h1
      rcases ih (n + 1) eid hmem with ⟨y, hy⟩
      refine ⟨y, ?_⟩
      simp only [assignPairRanks, List.lookup]
      rw [show (eid == a) = false from beq_eq_false_iff_ne.mpr heq]
      exact hy

theorem mem_rankedRows_entry {store loaded : List Snapshot} {gameDays : List Nat}
    {monday : Int} {r : Row} (h : r ∈ rankedRows store gameDays loaded monday) :
    r.entry ∈ entryIds loaded := by
  unfold rankedRows at h
  rcases mem_assignRanks h with ⟨r0, hr0, m, hm⟩
  rcases mem_weeklyRows (List.mem_mergeSort.mp hr0) with ⟨he, _, _⟩
  rw [hm]
  exact he

theorem foldl_eq_init {β : Type} (g : Int → β → Int) :
    ∀ (l : List β) (a : Int), (∀ x ∈ l, ∀ acc, g acc x = acc) → l.foldl g a = a := by
  intro l
  induction l with
  | nil => intro a _; rfl
  | cons x l ih =>
    intro a hg
    rw [List.foldl_cons, hg x (List.mem_cons_self x l) a]
    exact ih a (fun y hy acc => hg y (List.mem_cons_of_mem x hy) acc)

theorem ydaySlot_eq_none_of_totalOf_none {store loaded : List Snapshot} {gameDays : List Nat}
    {eid monday : Int} {i : Nat}
    (htot : totalOf loaded eid (monday + (i : Int)) = none) :
    ydaySlot store gameDays loaded eid monday i = none := by
  unfold ydaySlot
  rcases gameDays.contains i with _ | _
  · rfl
  · rw [htot]
    rfl

/-- C10: whenever the movement block runs (yesterday's snapshot present and
at least two snapshot dates this week), the reconstructed yesterday rank
map ranks every participant id of this week's loaded snapshots, so every
output row's movement is derived as yesterday_rank − today_rank — the
absent-participant fallback branch is never taken — and a participant first
captured today (no totals on any date ≤ yesterday) is still ranked, with
yesterday total 0. -/
theorem C10_yesterday_ranking_covers_all
    (store : List Snapshot) (gameDays : List Nat) (today : Int) (rows : List Row)
    (h : compute_weekly_ranking store gameDays today = some rows)
    (hc : movementCond (loadWeekSnapshots store (get_week_bounds today).1 today) (today - 1)
      = true) :
    (∀ r ∈ rows, ∃ y : Nat,
      (yesterdayRankMap store gameDays (loadWeekSnapshots store (get_week_bounds today).1 today)
          (get_week_bounds today).1 (today - 1)).lookup r.entry = some y
      ∧ r.movement = (y : Int) - (r.rank : Int))
    ∧ (∀ eid ∈ entryIds (loadWeekSnapshots store (get_week_bounds today).1 today),
        (∀ i : Nat, i < 7 → (get_week_bounds today).1 + (i : Int) ≤ today - 1 →
          totalOf (loadWeekSnapshots store (get_week_bounds today).1 today) eid
            ((get_week_bounds today).1 + (i : Int)) = none) →
        yesterdayTotal store gameDays (loadWeekSnapshots store (get_week_bounds today).1 today)
          eid (get_week_bounds today).1 (today - 1) = 0) := by
  constructor
  · intro r hr
    rw [compute_eq_some h] at hr
    unfold computeRows at hr
    rw [if_pos hc] at hr
    rcases List.mem_map.mp hr with ⟨r1, hr1, heq⟩
    have hentry : r1.entry ∈ entryIds (loadWeekSnapshots store (get_week_bounds today).1 today) :=
      mem_rankedRows_entry hr1
    have hkeys : r1.entry ∈ ((yesterdayPairs store gameDays
        (loadWeekSnapshots store (get_week_bounds today).1 today)
        (get_week_bounds today).1 (today - 1)).mergeSort pairLE).map Prod.fst := by
      simp only [List.mem_map]
      refine ⟨(r1.entry, yesterdayTotal store gameDays
        (loadWeekSnapshots store (get_week_bounds today).1 today) r1.entry
        (get_week_bounds today).1 (today - 1)), ?_, rfl⟩
      rw [List.mem_mergeSort]
      unfold yesterdayPairs
      exact List.mem_map.mpr ⟨r1.entry, hentry, rfl⟩
    rcases lookup_assignPairRanks 0 _ r1.entry hkeys with ⟨y, hy⟩
    refine ⟨y, ?_, ?_⟩
    · subst heq
      rw [setMovement_entry]
      exact hy
    · subst heq
      rw [setMovement_rank]
      have hy2 : (yesterdayRankMap store gameDays
          (loadWeekSnapshots store (get_week_bounds today).1 today)
          (get_week_bounds today).1 (today - 1)).lookup r1.entry = some y := hy
      unfold setMovement
      rw [hy2]
  · intro eid _ hnone
    unfold yesterdayTotal
    apply foldl_eq_init
    intro i hi acc
    have hrange : i ∈ List.range 7 :=
      (List.takeWhile_sublist _).subset hi
    have hle : (get_week_bounds today).1 + (i : Int) ≤ today - 1 := by
      have := List.mem_takeWhile_imp hi
      simpa using this
    rw [ydaySlot_eq_none_of_totalOf_none
      (hnone i (List.mem_range.mp hrange) hle)]

unseal List.merge List.mergeSort in
/-- C10 witness: the two-snapshot store, where the movement block runs. -/
theorem C10_yesterday_ranking_covers_all_witness :
    compute_weekly_ranking wStore2 [0, 1] 1 = some [wRow2]
    ∧ movementCond (loadWeekSnapshots wStore2 (get_week_bounds 1).1 1) ((1 : Int) - 1) = true
    ∧ ((∀ r ∈ [wRow2], ∃ y : Nat,
        (yesterdayRankMap wStore2 [0, 1] (loadWeekSnapshots wStore2 (get_week_bounds 1).1 1)
            (get_week_bounds 1).1 ((1 : Int) - 1)).lookup r.entry = some y
        ∧ r.movement = (y : Int) - (r.rank : Int))
      ∧ (∀ eid ∈ entryIds (loadWeekSnapshots wStore2 (get_week_bounds 1).1 1),
          (∀ i : Nat, i < 7 → (get_week_bounds 1).1 + (i : Int) ≤ (1 : Int) - 1 →
            totalOf (loadWeekSnapshots wStore2 (get_week_bounds 1).1 1) eid
              ((get_week_bounds 1).1 + (i : Int)) = none) →
          yesterdayTotal wStore2 [0, 1] (loadWeekSnapshots wStore2 (get_week_bounds 1).1 1)
            eid (get_week_bounds 1).1 ((1 : Int) - 1) = 0)) :=
  ⟨rfl, rfl, C10_yesterday_ranking_covers_all wStore2 [0, 1] 1 [wRow2] rfl rfl⟩

theorem rowLE_trans : ∀ (a b c : Row), rowLE a b → rowLE b c → rowLE a c := by
  intro a b c hab hbc
  simp only [rowLE, decide_eq_true_eq] at hab hbc
  simp only [rowLE, decide_eq_true_eq]
  omega

theorem rowLE_total : ∀ (a b : Row), rowLE a b || rowLE b a := by
  intro a b
  simp only [rowLE]
  rcases le_total a.total b.total with h | h
  · simp [h]
  · simp [h]

theorem computeRows_map_rowData (store : List Snapshot) (gameDays : List Nat) (today : Int) :
    (computeRows store gameDays today).map rowData
      = (sortRows (weeklyRows store gameDays
          (loadWeekSnapshots store (get_week_bounds today).1 today)
          (get_week_bounds today).1)).map rowData := by
  unfold computeRows
  split
  · unfold applyMovement rankedRows
    rw [List.map_map]
    have hf : rowData ∘ setMovement (yesterdayRankMap store gameDays
        (loadWeekSnapshots store (get_week_bounds today).1 today)
        (get_week_bounds today).1 (today - 1)) = rowData :=
      funext (setMovement_rowData _)
    rw [hf, assignRanks_map_rowData]
  · unfold rankedRows
    rw [List.map_map]
    have hf : rowData ∘ clearMovement = rowData := funext clearMovement_rowData
    rw [hf, assignRanks_map_rowData]

theorem rankedRows_rank (store : List Snapshot) (gameDays : List Nat) (loaded : List Snapshot)
    (monday : Int) (k : Nat) (r : Row)
    (h : (rankedRows store gameDays loaded monday)[k]? = some r) : r.rank = k + 1 := by
  unfold rankedRows at h
  rw [assignRanks_getElem?] at h
  cases hs : (sortRows (weeklyRows store gameDays loaded monday))[k]? with
  | none => rw [hs] at h; cases h
  | some r0 =>
    rw [hs] at h
    simp only [Option.map_some', Option.some.injEq] at h
    rw [← h]
    simp

theorem computeRows_rank (store : List Snapshot) (gameDays : List Nat) (today : Int) (k : Nat)
    (r : Row) (h : (computeRows store gameDays today)[k]? = some r) : r.rank = k + 1 := by
  unfold computeRows at h
  split at h
  · unfold applyMovement at h
    rw [List.getElem?_map] at h
    cases hs : (rankedRows store gameDays
        (loadWeekSnapshots store (get_week_bounds today).1 today)
        (get_week_bounds today).1)[k]? with
    | none => rw [hs] at h; cases h
    | some r1 =>
      rw [hs] at h
      simp only [Option.map_some', Option.some.injEq] at h
      have hr1 := rankedRows_rank store gameDays _ _ k r1 hs
      rw [← h, setMovement_rank]
      exact hr1
  · rw [List.getElem?_map] at h
    cases hs : (rankedRows store gameDays
        (loadWeekSnapshots store (get_week_bounds today).1 today)
        (get_week_bounds today).1)[k]? with
    | none => rw [hs] at h; cases h
    | some r1 =>
      rw [hs] at h
      simp only [Option.map_some', Option.some.injEq] at h
      have hr1 := rankedRows_rank store gameDays _ _ k r1 hs
      rw [← h, clearMovement_rank]
      exact hr1

theorem computeRows_pairwise_total (store : List Snapshot) (gameDays : List Nat) (today : Int) :
    (computeRows store gameDays today).Pairwise (fun a b => b.total ≤ a.total) := by
  have hsorted : (sortRows (weeklyRows store gameDays
      (loadWeekSnapshots store (get_week_bounds today).1 today)
      (get_week_bounds today).1)).Pairwise (fun a b => rowLE a b = true) :=
    List.sorted_mergeSort rowLE_trans rowLE_total _
  have hs2 : (sortRows (weeklyRows store gameDays
      (loadWeekSnapshots store (get_week_bounds today).1 today)
      (get_week_bounds today).1)).Pairwise (fun a b => b.total ≤ a.total) :=
    hsorted.imp (fun hab => by simpa [rowLE] using hab)
  have h1 : ((sortRows (weeklyRows store gameDays
      (loadWeekSnapshots store (get_week_bounds today).1 today)
      (get_week_bounds today).1)).map rowData).Pairwise
        (fun x y => y.2.2 ≤ x.2.2) :=
    List.pairwise_map.mpr hs2
  rw [← computeRows_map_rowData] at h1
  exact List.pairwise_map.mp h1

theorem computeRows_stable (store : List Snapshot) (gameDays : List Nat) (today : Int)
    (a b : Row) (hab : a.total = b.total)
    (hsub : List.Sublist [a, b] (weeklyRows store gameDays
      (loadWeekSnapshots store (get_week_bounds today).1 today) (get_week_bounds today).1)) :
    List.Sublist [rowData a, rowData b] ((computeRows store gameDays today).map rowData) := by
  have h1 : List.Sublist [a, b] (sortRows (weeklyRows store gameDays
      (loadWeekSnapshots store (get_week_bounds today).1 today) (get_week_bounds today).1)) :=
    List.pair_sublist_mergeSort rowLE_trans rowLE_total
      (by simp [rowLE, hab]) hsub
  have h2 := h1.map rowData
  rw [computeRows_map_rowData]
  simpa using h2

/-- C5: in the output, ranks are the contiguous 1-based positions of a
stable descending sort by weekly total over all known participants: the row
at position k has rank k+1, totals are non-increasing along the output, and
two rows with equal totals keep their pre-sort relative order. -/
theorem C5_rank_stable_descending
    (store : List Snapshot) (gameDays : List Nat) (today : Int) (rows : List Row)
    (h : compute_weekly_ranking store gameDays today = some rows) :
    (∀ (k : Nat) (r : Row), rows[k]? = some r → r.rank = k + 1)
    ∧ rows.Pairwise (fun a b => b.total ≤ a.total)
    ∧ (∀ a b : Row, a.total = b.total →
        List.Sublist [a, b] (weeklyRows store gameDays
          (loadWeekSnapshots store (get_week_bounds today).1 today) (get_week_bounds today).1) →
        List.Sublist [rowData a, rowData b] (rows.map rowData)) := by
  rw [compute_eq_some h]
  exact ⟨fun k r hk => computeRows_rank store gameDays today k r hk,
    computeRows_pairwise_total store gameDays today,
    fun a b hab hsub => computeRows_stable store gameDays today a b hab hsub⟩

unseal List.merge List.mergeSort in
/-- C5 witness: the two-snapshot store with a single participant. -/
theorem C5_rank_stable_descending_witness :
    compute_weekly_ranking wStore2 [0, 1] 1 = some [wRow2]
    ∧ ((∀ (k : Nat) (r : Row), [wRow2][k]? = some r → r.rank = k + 1)
      ∧ [wRow2].Pairwise (fun a b => b.total ≤ a.total)
      ∧ (∀ a b : Row, a.total = b.total →
          List.Sublist [a, b] (weeklyRows wStore2 [0, 1]
            (loadWeekSnapshots wStore2 (get_week_bounds 1).1 1) (get_week_bounds 1).1) →
          List.Sublist [rowData a, rowData b] ([wRow2].map rowData))) :=
  ⟨rfl, C5_rank_stable_descending wStore2 [0, 1] 1 [wRow2] rfl⟩

end Scraper
